import Mathlib

/-!
Verification of the model-download / model-fixer core of
ComfyUI-Majoor-ProjectSettings against its specification.

The Python sources under `src/server/` are shallowly embedded below:
strings are represented as `List Char` (`Str`), bytes as `List Nat`,
Python dict lookups become `Option` fields, exceptions become `Except`,
and CPython floats are modelled with `ℚ` (all arithmetic appearing in the
verified branches is exact, so rational arithmetic agrees with the float
computation on the concrete inputs evaluated here).

External collaborators (the filesystem, `urllib.request`, `difflib`,
`datetime` parsing) are either modelled from their documented behaviour
(`urlparse`, `difflib.SequenceMatcher` with junk heuristics disabled —
no input in this development reaches the autojunk threshold of 200
characters) or abstracted into explicit parameters (per-item download
outcomes, the ISO-8601 parser).
-/

namespace MjrProject

/-- Python strings, modelled as lists of characters. -/
abbrev Str := List Char

/-- Python byte strings, modelled as lists of byte values. -/
abbrev Bytes := List Nat

/-- Characters treated as whitespace by Python's `str.strip()` / `\s`. -/
def isPySpace (c : Char) : Bool :=
  c = ' ' ∨ c = '\t' ∨ c = '\n' ∨ c = '\r' ∨ c = '\x0b' ∨ c = '\x0c'

/-- Python `str.strip()`: drop leading and trailing whitespace. -/
def pyStrip (s : Str) : Str :=
  ((s.dropWhile isPySpace).reverse.dropWhile isPySpace).reverse

/-- Python `str.lower()`, restricted to ASCII (all verified inputs are ASCII). -/
def lowerStr (s : Str) : Str := s.map Char.toLower

/-- `route_utils.basename`: `os.path.basename(str(value or "").replace("\\", "/"))`.
`os.path.basename` keeps the part after the last `/`. -/
def basename (value : Str) : Str :=
  let s := value.map (fun c => if c = '\\' then '/' else c)
  ((s.reverse.takeWhile (fun c => c ≠ '/'))).reverse

/-- Decimal ASCII bytes of a natural number, i.e. `str(size).encode("ascii")`. -/
def sizeBytes (n : Nat) : Bytes := (Nat.repr n).toList.map Char.toNat

/-- `model_fixer_routes._hash_file`, at the level of the byte sequence fed to
the SHA-256 object.  `content` is the file's full byte contents, so
`content.length` is `path.stat().st_size`.  The fingerprint returned by the
source is the hex digest of SHA-256 over exactly this byte sequence. -/
def hashInput (content : Bytes) : Bytes :=
  let size := content.length
  let body :=
    if size < 2 * 1024 * 1024 then
      content
    else
      let head := content.take (1024 * 1024)
      let tail :=
        if size > 1024 * 1024 then
          (content.drop (max (size - 1024 * 1024) 0)).take (1024 * 1024)
        else
          []
      head ++ tail
  body ++ sizeBytes size

/-! ### `urllib.parse.urlparse`, restricted to scheme, netloc and path

Modelled from the CPython implementation of `urlsplit`: a scheme is split
off when the text before the first `:` is non-empty, starts with an ASCII
letter and consists of letters, digits, `+`, `-`, `.`; the netloc is the
text after a leading `//` up to the next `/`, `?` or `#`; the path runs up
to the next `?` or `#`. -/

/-- Characters allowed in a URL scheme. -/
def isSchemeChar (c : Char) : Bool :=
  (('a' ≤ c ∧ c ≤ 'z') ∨ ('A' ≤ c ∧ c ≤ 'Z') ∨ ('0' ≤ c ∧ c ≤ '9')
    ∨ c = '+' ∨ c = '-' ∨ c = '.')

/-- ASCII letter test. -/
def isAsciiAlpha (c : Char) : Bool :=
  ('a' ≤ c ∧ c ≤ 'z') ∨ ('A' ≤ c ∧ c ≤ 'Z')

/-- The scheme/netloc/path components of a parsed URL. -/
structure UrlParts where
  scheme : Str
  netloc : Str
  path : Str
deriving DecidableEq, Repr

/-- Split a URL into the part before the first `:` and the part after it. -/
def splitColon : Str → Option (Str × Str)
  | [] => none
  | c :: rest =>
    if c = ':' then some ([], rest)
    else match splitColon rest with
      | some (a, b) => some (c :: a, b)
      | none => none

/-- `urllib.parse.urlparse`, scheme/netloc/path fragment of the result. -/
def urlparse (url : Str) : UrlParts :=
  let (scheme, rest) :=
    match splitColon url with
    | some (before, after) =>
      if before ≠ [] ∧ (∀ c ∈ before, isSchemeChar c)
          ∧ (∀ c ∈ url.take 1, isAsciiAlpha c) then
        (lowerStr before, after)
      else ([], url)
    | none => ([], url)
  match rest with
  | '/' :: '/' :: tail =>
    let netloc := tail.takeWhile (fun c => c ≠ '/' ∧ c ≠ '?' ∧ c ≠ '#')
    let remainder := tail.drop netloc.length
    { scheme := scheme, netloc := netloc,
      path := remainder.takeWhile (fun c => c ≠ '?' ∧ c ≠ '#') }
  | _ =>
    { scheme := scheme, netloc := [],
      path := rest.takeWhile (fun c => c ≠ '?' ∧ c ≠ '#') }

/-! ### `model_downloader_routes._prepare_headers` (C2) -/

/-- The three token environment variables consulted as fallback:
`HUGGINGFACE_HUB_TOKEN`, `HF_TOKEN`, `HUGGINGFACE_TOKEN`.
`none` models an unset variable. -/
structure TokenEnv where
  hubToken : Option Str
  hfToken : Option Str
  huggingfaceToken : Option Str

/-- Python truthiness for an optional string: set and non-empty. -/
def optTruthy : Option Str → Bool
  | none => false
  | some s => s ≠ []

/-- `os.environ.get(A) or os.environ.get(B) or os.environ.get(C)`, kept only
up to truthiness (the code immediately returns when the result is falsy). -/
def envTokenChain (env : TokenEnv) : Option Str :=
  if optTruthy env.hubToken then env.hubToken
  else if optTruthy env.hfToken then env.hfToken
  else if optTruthy env.huggingfaceToken then env.huggingfaceToken
  else none

/-- The HTTP headers produced by `_prepare_headers`: a fixed User-Agent and
an optional Authorization value. -/
structure DlHeaders where
  userAgent : Str
  authorization : Option Str
deriving DecidableEq, Repr

/-- The host condition guarding the Authorization header in
`_prepare_headers`: `"huggingface.co" in host or
"huggingfaceusercontent.com" in host or host.endswith("hf.co")`,
where `host = urlparse(url).netloc.lower()`. -/
def trustedProviderHost (host : Str) : Prop :=
  ("huggingface.co".toList <:+: host)
  ∨ ("huggingfaceusercontent.com".toList <:+: host)
  ∨ ("hf.co".toList <:+ host)

instance (host : Str) : Decidable (trustedProviderHost host) := by
  unfold trustedProviderHost; infer_instance

/-- `model_downloader_routes._prepare_headers`. -/
def prepareHeaders (env : TokenEnv) (url : Str) (token : Option Str) :
    DlHeaders :=
  let headers : DlHeaders :=
    { userAgent := "ComfyUI-Majoor-Downloader".toList, authorization := none }
  let token := if optTruthy token then token else envTokenChain env
  match token with
  | none => headers
  | some t =>
    if t = [] then headers
    else
      let host := lowerStr (urlparse url).netloc
      if trustedProviderHost host then
        { headers with authorization := some ("Bearer ".toList ++ t) }
      else headers

/-! ### `model_fixer_routes` fuzzy matcher (C3, C4)

`_normalize_for_match` and `_candidate_score`, together with the part of
`difflib.SequenceMatcher` they use (`ratio()` with the junk heuristics
disabled; autojunk only activates on strings of 200+ characters, far above
anything evaluated here). -/

/-- Opening brackets of the `_BRACKETS_RE` character classes. -/
def isOpenBracket (c : Char) : Bool :=
  c = '[' ∨ c = '(' ∨ c = '\x7b'

/-- Closing brackets of the `_BRACKETS_RE` character classes. -/
def isCloseBracket (c : Char) : Bool :=
  c = ']' ∨ c = ')' ∨ c = '\x7d'

/-- Scan for the first closing bracket reachable without crossing a newline
(`.` in the regex does not match a newline); returns the remainder after it. -/
def findCloseBracket : Str → Option Str
  | [] => none
  | c :: rest =>
    if isCloseBracket c then some rest
    else if c = '\n' then none
    else findCloseBracket rest

/-- `re.sub(_BRACKETS_RE, " ", s)`: each leftmost non-greedy match of
`[\[\(\x7b].*?[\]\)\x7d]` is replaced by one space.  Fuelled structural
recursion; `bracketsSub` supplies fuel `s.length`, which is always enough
because every step consumes at least one character. -/
def bracketsSubAux : Nat → Str → Str
  | 0, s => s
  | _ + 1, [] => []
  | fuel + 1, c :: rest =>
    if isOpenBracket c then
      match findCloseBracket rest with
      | some rem => ' ' :: bracketsSubAux fuel rem
      | none => c :: bracketsSubAux fuel rest
    else c :: bracketsSubAux fuel rest

/-- Bracketed-segment removal (`_BRACKETS_RE` substitution). -/
def bracketsSub (s : Str) : Str := bracketsSubAux s.length s

/-- `re.sub(r"[-_\.]+", " ", s)`, applied characterwise: the final
whitespace collapse merges the resulting space runs exactly as the
run-based substitution would. -/
def sepToSpace (s : Str) : Str :=
  s.map (fun c => if c = '-' ∨ c = '_' ∨ c = '.' then ' ' else c)

/-- `re.sub(r"[^a-z0-9 ]+", " ", s)`, applied characterwise (same
justification as `sepToSpace`). -/
def nonAlnumToSpace (s : Str) : Str :=
  s.map (fun c =>
    if ('a' ≤ c ∧ c ≤ 'z') ∨ ('0' ≤ c ∧ c ≤ '9') ∨ c = ' ' then c else ' ')

/-- Split on whitespace runs, dropping empty words (Python `str.split()`).
`acc` holds the reversed current word. -/
def splitWsAux : Str → Str → List Str
  | acc, [] => if acc = [] then [] else [acc.reverse]
  | acc, c :: rest =>
    if isPySpace c then
      if acc = [] then splitWsAux [] rest
      else acc.reverse :: splitWsAux [] rest
    else splitWsAux (c :: acc) rest

/-- Python `str.split()` with no separator argument. -/
def splitWs (s : Str) : List Str := splitWsAux [] s

/-- `re.sub(r"\s+", " ", s).strip()`: collapse whitespace runs to single
spaces and strip the ends, i.e. rejoin the whitespace-split words. -/
def collapseWs (s : Str) : Str := List.intercalate [' '] (splitWs s)

/-- The suffixes matched by `_EXT_RE` (the input is already lowercased, so
the `IGNORECASE` flag is immaterial).  At most one alternative can match
the anchored end of the string. -/
def modelExts : List Str :=
  [".safetensors".toList, ".ckpt".toList, ".pt".toList, ".pth".toList,
    ".bin".toList]

/-- `_EXT_RE.sub("", s)`: strip a trailing model-file extension. -/
def extStrip (s : Str) : Str :=
  match modelExts.find? (fun e => decide (e <:+ s)) with
  | some e => s.take (s.length - e.length)
  | none => s

/-- `model_fixer_routes._normalize_for_match`. -/
def normalizeForMatch (value : Str) : Str :=
  collapseWs (nonAlnumToSpace (sepToSpace (bracketsSub
    (extStrip (lowerStr (basename value))))))

/-- `model_fixer_routes._STOPWORDS`. -/
def stopwords : List Str :=
  ["model", "checkpoint", "ckpt", "lora", "vae", "clip", "unet",
    "diffusion", "stable", "sd", "comfyui"].map String.toList

/-- The filtered token set of a normalized string:
`set(w for w in norm.split() if w not in _STOPWORDS and len(w) > 1)`. -/
def tokenSet (norm : Str) : Finset Str :=
  ((splitWs norm).filter (fun w => w ∉ stopwords ∧ w.length > 1)).toFinset

/-- Length of the common run at the heads of two strings. -/
def commonRun : Str → Str → Nat
  | x :: xs, y :: ys => if x = y then commonRun xs ys + 1 else 0
  | _, _ => 0

/-- `SequenceMatcher.find_longest_match` with no junk: the start positions
and length of the longest common contiguous block, taking the
lexicographically first `(i, j)` among blocks of maximal length (matching
CPython's strict-improvement scan order). -/
def findLongest (a b : Str) : Nat × Nat × Nat :=
  (List.range a.length).foldl (fun best i =>
    (List.range b.length).foldl (fun best j =>
      let k := commonRun (a.drop i) (b.drop j)
      if k > best.2.2 then (i, j, k) else best) best) (0, 0, 0)

/-- Total size of the matching blocks found by the recursive
Ratcliff-Obershelp decomposition (`SequenceMatcher.get_matching_blocks`;
the final adjacency merge does not change the total).  Fuelled structural
recursion; fuel `a.length` suffices since both recursive calls strictly
shrink the first string when a non-empty block was found. -/
def matchesTotalAux : Nat → Str → Str → Nat
  | 0, _, _ => 0
  | fuel + 1, a, b =>
    let ijk := findLongest a b
    let i := ijk.1
    let j := ijk.2.1
    let k := ijk.2.2
    if k = 0 then 0
    else
      k + matchesTotalAux fuel (a.take i) (b.take j)
        + matchesTotalAux fuel (a.drop (i + k)) (b.drop (j + k))

/-- Total matched characters between two strings. -/
def matchesTotal (a b : Str) : Nat := matchesTotalAux a.length a b

/-- `SequenceMatcher(None, a, b).ratio()`: `2*M / (len(a)+len(b))`,
defined as 1 when both strings are empty. -/
def smRatio (a b : Str) : ℚ :=
  let total := a.length + b.length
  if total = 0 then 1 else (2 * matchesTotal a b : ℚ) / total

/-- The reason tags returned by `_candidate_score` (the hybrid reason's
embedded numeric diagnostics are display-only and elided). -/
inductive ScoreReason where
  | exactBasename
  | queryTooShort
  | exactNormalized
  | fuzzyFallback
  | tokenSubset
  | hybrid
deriving DecidableEq, Repr

/-- `model_fixer_routes._candidate_score`. -/
def candidateScore (base cand : Str) : Int × ScoreReason :=
  if base ≠ [] ∧ cand ≠ [] ∧ base = cand then (100, .exactBasename)
  else
    let baseNorm := normalizeForMatch base
    let candNorm := normalizeForMatch cand
    if baseNorm.length < 4 then (0, .queryTooShort)
    else if baseNorm = candNorm then (100, .exactNormalized)
    else
      let baseTokens := tokenSet baseNorm
      let candTokens := tokenSet candNorm
      if baseTokens = ∅ ∨ candTokens = ∅ then
        (⌊smRatio baseNorm candNorm * 80⌋, .fuzzyFallback)
      else if baseTokens ⊆ candTokens then
        let extraWords := (candTokens \ baseTokens).card
        (max 80 (98 - extraWords * 3), .tokenSubset)
      else
        let inter := (baseTokens ∩ candTokens).card
        let union := (baseTokens ∪ candTokens).card
        let jaccard : ℚ := if union > 0 then (inter : ℚ) / union else 0
        let fuzzyRatio := smRatio baseNorm candNorm
        let substringBonus : ℚ :=
          if baseNorm.length > 5 ∧ (baseNorm <:+: candNorm ∨ candNorm <:+: baseNorm)
          then 10 else 0
        let combined := jaccard * 60 + fuzzyRatio * 30 + substringBonus
        (⌊min combined 95⌋, .hybrid)

/-! ### Helper lemmas for evaluating `candidateScore` branches -/

/-- Unfold `smRatio` when the strings are not both empty. -/
lemma smRatio_eq (a b : Str) (h : a.length + b.length ≠ 0) :
    smRatio a b = (2 * matchesTotal a b : ℚ) / (a.length + b.length) := by
  simp only [smRatio]
  rw [if_neg h]
  push_cast
  ring

/-- Characterization of the `fuzzy_fallback` branch of `_candidate_score`. -/
lemma candidateScore_fuzzyFallback (base cand : Str)
    (h1 : ¬(base ≠ [] ∧ cand ≠ [] ∧ base = cand))
    (h2 : ¬ (normalizeForMatch base).length < 4)
    (h3 : normalizeForMatch base ≠ normalizeForMatch cand)
    (h4 : tokenSet (normalizeForMatch base) = ∅ ∨ tokenSet (normalizeForMatch cand) = ∅) :
    candidateScore base cand =
      (⌊smRatio (normalizeForMatch base) (normalizeForMatch cand) * 80⌋,
        .fuzzyFallback) := by
  simp only [candidateScore]
  rw [if_neg h1, if_neg h2, if_neg h3, if_pos h4]

/-- Characterization of the `hybrid` branch of `_candidate_score`. -/
lemma candidateScore_hybrid (base cand : Str)
    (h1 : ¬(base ≠ [] ∧ cand ≠ [] ∧ base = cand))
    (h2 : ¬ (normalizeForMatch base).length < 4)
    (h3 : normalizeForMatch base ≠ normalizeForMatch cand)
    (h4 : ¬(tokenSet (normalizeForMatch base) = ∅ ∨ tokenSet (normalizeForMatch cand) = ∅))
    (h5 : ¬ tokenSet (normalizeForMatch base) ⊆ tokenSet (normalizeForMatch cand)) :
    candidateScore base cand =
      (⌊min
        ((if 0 < (tokenSet (normalizeForMatch base) ∪ tokenSet (normalizeForMatch cand)).card then
            ((tokenSet (normalizeForMatch base) ∩ tokenSet (normalizeForMatch cand)).card : ℚ) /
              (tokenSet (normalizeForMatch base) ∪ tokenSet (normalizeForMatch cand)).card
          else 0) * 60
          + smRatio (normalizeForMatch base) (normalizeForMatch cand) * 30
          + (if 5 < (normalizeForMatch base).length
                ∧ (normalizeForMatch base <:+: normalizeForMatch cand
                  ∨ normalizeForMatch cand <:+: normalizeForMatch base)
              then 10 else 0)) 95⌋, .hybrid) := by
  simp only [candidateScore]
  rw [if_neg h1, if_neg h2, if_neg h3, if_neg h4, if_neg h5]

/-! ### Claim C1 -/

/-- Claim C1 as stated is false: for the one-byte file `[0]` (size 1,
well under 2 MiB) the byte sequence fed to SHA-256 is not the file's
contents — `_hash_file` appends the decimal size string for every file,
not only for large ones. -/
theorem C1_counterexample :
    ([0] : Bytes).length < 2 * 1024 * 1024 ∧ hashInput [0] ≠ [0] := by
  decide

/-- Claim C1, amended: for every file under 2 MiB the fingerprint is the
SHA-256 digest of the full contents with the decimal size string appended
(the size suffix is fed to the hash for files of every size). -/
theorem C1_small_file_hash_input (content : Bytes)
    (h : content.length < 2 * 1024 * 1024) :
    hashInput content = content ++ sizeBytes content.length := by
  simp only [hashInput]
  rw [if_pos h]

/-- Witness for `C1_small_file_hash_input` at the one-byte file `[0]`. -/
theorem C1_small_file_hash_input_witness :
    ([0] : Bytes).length < 2 * 1024 * 1024
    ∧ hashInput [0] = [0] ++ sizeBytes ([0] : Bytes).length :=
  ⟨by decide, C1_small_file_hash_input [0] (by decide)⟩

/-! ### Claim C3 -/

/-- Claim C3 as stated is false twice over.  First, `"ab"` and `"ab."`
normalize to the same string, yet the score is 0, not 100: the
too-short rejection fires before the normalized-equality test.  Second,
`"abcd"` against `"v"` scores 0 from the fuzzy-fallback branch although
the normalized target has 4 characters and the raw strings differ, so 0
is not returned only in the too-short case. -/
theorem C3_counterexample :
    (normalizeForMatch "ab".toList = normalizeForMatch "ab.".toList
      ∧ "ab".toList ≠ "ab.".toList
      ∧ (candidateScore "ab".toList "ab.".toList).1 = 0)
    ∧ ((candidateScore "abcd".toList "v".toList).1 = 0
      ∧ 4 ≤ (normalizeForMatch "abcd".toList).length
      ∧ "abcd".toList ≠ "v".toList) := by
  refine ⟨⟨by decide, by decide, by decide⟩, ?_, by decide, by decide⟩
  rw [candidateScore_fuzzyFallback "abcd".toList "v".toList
    (by decide) (by decide) (by decide) (by decide)]
  rw [smRatio_eq _ _ (by decide)]
  rw [show matchesTotal (normalizeForMatch "abcd".toList)
      (normalizeForMatch "v".toList) = 0 from by decide]
  norm_num

/-- Claim C3, amended: the score is 100 whenever the normalized forms are
equal and the normalized target has at least 4 characters; and whenever
the normalized target has fewer than 4 characters and the raw strings are
not an exact (non-empty) match, the score is 0 with reason
`query_too_short` — though 0 can also arise from the fuzzy branches. -/
theorem C3_normalized_match_scoring (base cand : Str) :
    (normalizeForMatch base = normalizeForMatch cand →
      4 ≤ (normalizeForMatch base).length →
      (candidateScore base cand).1 = 100)
    ∧ ((normalizeForMatch base).length < 4 →
      ¬(base ≠ [] ∧ cand ≠ [] ∧ base = cand) →
      candidateScore base cand = (0, .queryTooShort)) := by
  constructor
  · intro heq hlen
    by_cases h1 : base ≠ [] ∧ cand ≠ [] ∧ base = cand
    · simp only [candidateScore]
      rw [if_pos h1]
    · simp only [candidateScore]
      rw [if_neg h1, if_neg (not_lt.mpr hlen), if_pos heq]
  · intro hlt h1
    simp only [candidateScore]
    rw [if_neg h1, if_pos hlt]

/-- Witness for `C3_normalized_match_scoring`: both conjuncts applied at
concrete inputs with the hypotheses discharged. -/
theorem C3_normalized_match_scoring_witness :
    (candidateScore "abcd".toList "abcd.".toList).1 = 100
    ∧ candidateScore "ab".toList "ab.".toList = (0, .queryTooShort) :=
  ⟨(C3_normalized_match_scoring "abcd".toList "abcd.".toList).1
      (by decide) (by decide),
    (C3_normalized_match_scoring "ab".toList "ab.".toList).2
      (by decide) (by decide)⟩

/-! ### Claim C4 -/

set_option maxRecDepth 16000 in
set_option maxHeartbeats 1000000 in
/-- Claim C4 as stated is false: for target `"abcd efgh"` and candidate
`"abcd"`, both filtered token sets are non-empty and the candidate's
tokens are a subset of the target's (the "vice versa" direction), the
claimed formula gives `max 80 (98 - 3·1) = 95`, yet the code falls
through to the hybrid branch and returns 58 — only the
target ⊆ candidate direction is tested by the source. -/
theorem C4_counterexample :
    tokenSet (normalizeForMatch "abcd".toList)
        ⊆ tokenSet (normalizeForMatch "abcd efgh".toList)
    ∧ tokenSet (normalizeForMatch "abcd efgh".toList) ≠ ∅
    ∧ tokenSet (normalizeForMatch "abcd".toList) ≠ ∅
    ∧ normalizeForMatch "abcd efgh".toList ≠ normalizeForMatch "abcd".toList
    ∧ 4 ≤ (normalizeForMatch "abcd efgh".toList).length
    ∧ "abcd efgh".toList ≠ "abcd".toList
    ∧ max 80 (98 - 3 * ((tokenSet (normalizeForMatch "abcd efgh".toList)
        \ tokenSet (normalizeForMatch "abcd".toList)).card : Int)) = 95
    ∧ (candidateScore "abcd efgh".toList "abcd".toList).1 = 58 := by
  refine ⟨by decide, by decide, by decide, by decide, by decide, by decide,
    by decide, ?_⟩
  rw [candidateScore_hybrid "abcd efgh".toList "abcd".toList
    (by decide) (by decide) (by decide) (by decide) (by decide)]
  rw [show (tokenSet (normalizeForMatch "abcd efgh".toList)
        ∩ tokenSet (normalizeForMatch "abcd".toList)).card = 1 from by decide]
  rw [show (tokenSet (normalizeForMatch "abcd efgh".toList)
        ∪ tokenSet (normalizeForMatch "abcd".toList)).card = 2 from by decide]
  rw [smRatio_eq _ _ (by decide)]
  rw [show matchesTotal (normalizeForMatch "abcd efgh".toList)
        (normalizeForMatch "abcd".toList) = 4 from by decide]
  rw [show (normalizeForMatch "abcd efgh".toList).length = 9 from by decide]
  rw [show (normalizeForMatch "abcd".toList).length = 4 from by decide]
  rw [if_pos (by norm_num : (0:ℕ) < 2)]
  rw [if_pos (⟨by norm_num, Or.inr (by decide)⟩ : 5 < 9
    ∧ (normalizeForMatch "abcd efgh".toList <:+: normalizeForMatch "abcd".toList
      ∨ normalizeForMatch "abcd".toList <:+: normalizeForMatch "abcd efgh".toList))]
  rw [min_eq_left (by norm_num)]
  norm_num

/-- Claim C4, amended: when the token stage is reached with both filtered
token sets non-empty and the TARGET's tokens are a subset of the
candidate's (this direction only), the score is
`max 80 (98 - 3·extra)` where `extra` counts the candidate's unmatched
tokens, and it lies in the band 80–98. -/
lemma subsetBandBounds (k : ℕ) :
    80 ≤ max (80:ℤ) (98 - 3 * (k:ℤ)) ∧ max (80:ℤ) (98 - 3 * (k:ℤ)) ≤ 98 := by
  refine ⟨le_max_left _ _, ?_⟩
  rw [max_le_iff]
  omega

theorem C4_token_subset_band (base cand : Str)
    (h1 : ¬(base ≠ [] ∧ cand ≠ [] ∧ base = cand))
    (h2 : 4 ≤ (normalizeForMatch base).length)
    (h3 : normalizeForMatch base ≠ normalizeForMatch cand)
    (h4 : tokenSet (normalizeForMatch base) ≠ ∅)
    (h5 : tokenSet (normalizeForMatch cand) ≠ ∅)
    (h6 : tokenSet (normalizeForMatch base) ⊆ tokenSet (normalizeForMatch cand)) :
    candidateScore base cand =
      (max 80 (98 - 3 * ((tokenSet (normalizeForMatch cand)
        \ tokenSet (normalizeForMatch base)).card : Int)), .tokenSubset)
    ∧ 80 ≤ (candidateScore base cand).1
    ∧ (candidateScore base cand).1 ≤ 98 := by
  have hmain : candidateScore base cand =
      (max 80 (98 - 3 * ((tokenSet (normalizeForMatch cand)
        \ tokenSet (normalizeForMatch base)).card : Int)), .tokenSubset) := by
    simp only [candidateScore]
    rw [if_neg h1, if_neg (not_lt.mpr h2), if_neg h3,
      if_neg (by push_neg; exact ⟨h4, h5⟩), if_pos h6]
    ring_nf
  refine ⟨hmain, ?_, ?_⟩
  · rw [hmain]
    exact (subsetBandBounds _).1
  · rw [hmain]
    exact (subsetBandBounds _).2

set_option maxRecDepth 16000 in
set_option maxHeartbeats 1000000 in
/-- Witness for `C4_token_subset_band` at target `"abcd"`, candidate
`"abcd efgh"` (one extra token, score 95). -/
theorem C4_token_subset_band_witness :
    candidateScore "abcd".toList "abcd efgh".toList =
      (max 80 (98 - 3 * ((tokenSet (normalizeForMatch "abcd efgh".toList)
        \ tokenSet (normalizeForMatch "abcd".toList)).card : Int)), .tokenSubset)
    ∧ 80 ≤ (candidateScore "abcd".toList "abcd efgh".toList).1
    ∧ (candidateScore "abcd".toList "abcd efgh".toList).1 ≤ 98 :=
  C4_token_subset_band "abcd".toList "abcd efgh".toList
    (by decide) (by decide) (by decide) (by decide) (by decide) (by decide)

/-! ### Claim C2 -/

/-- The spec's notion of a trusted Hugging Face provider domain,
following the spec's words rather than the source (for comparison with
the code's `trustedProviderHost` test): the host is one of the provider
domains `huggingface.co`, `huggingfaceusercontent.com`, `hf.co`, or a
subdomain of one of them. -/
def specHuggingFaceProviderDomain (host : Str) : Prop :=
  host = "huggingface.co".toList
  ∨ host = "huggingfaceusercontent.com".toList
  ∨ host = "hf.co".toList
  ∨ (".huggingface.co".toList <:+ host)
  ∨ (".huggingfaceusercontent.com".toList <:+ host)
  ∨ (".hf.co".toList <:+ host)

instance (host : Str) : Decidable (specHuggingFaceProviderDomain host) := by
  unfold specHuggingFaceProviderDomain; infer_instance

set_option maxRecDepth 4000 in
/-- Claim C2 as stated is false: the code's allowlist check is a
substring/suffix test, not a domain match, so the attacker-registrable
host `huggingface.co.evil.example` — not a Hugging Face provider domain —
receives the Authorization header, and the headers differ depending on
whether a token was supplied. -/
theorem C2_counterexample :
    ¬ specHuggingFaceProviderDomain
      (lowerStr (urlparse
        "https://huggingface.co.evil.example/m.safetensors".toList).netloc)
    ∧ (prepareHeaders ⟨none, none, none⟩
        "https://huggingface.co.evil.example/m.safetensors".toList
        (some "secret".toList)).authorization.isSome = true
    ∧ prepareHeaders ⟨none, none, none⟩
        "https://huggingface.co.evil.example/m.safetensors".toList
        (some "secret".toList)
      ≠ prepareHeaders ⟨none, none, none⟩
        "https://huggingface.co.evil.example/m.safetensors".toList none := by
  decide

/-- Claim C2, amended: the allowlist test actually applied by
`_prepare_headers` is a substring/suffix check on the lowercased host
(which some non-Hugging-Face hosts also pass).  For every download URL
whose host fails that test, `_prepare_headers` returns the same headers
whether or not a token is supplied (and whatever the environment tokens
are); and the Authorization header is attached only when the host passes
that test. -/
theorem C2_token_only_to_trusted_hosts :
    (∀ (env : TokenEnv) (url t : Str),
      ¬ trustedProviderHost (lowerStr (urlparse url).netloc) →
      prepareHeaders env url (some t) = prepareHeaders env url none)
    ∧ (∀ (env : TokenEnv) (url : Str) (token : Option Str),
      (prepareHeaders env url token).authorization.isSome →
      trustedProviderHost (lowerStr (urlparse url).netloc)) := by
  have hplain : ∀ (env : TokenEnv) (url : Str) (token : Option Str),
      ¬ trustedProviderHost (lowerStr (urlparse url).netloc) →
      prepareHeaders env url token =
        { userAgent := "ComfyUI-Majoor-Downloader".toList,
          authorization := none } := by
    intro env url token h
    simp only [prepareHeaders]
    rcases htok : (if optTruthy token then token else envTokenChain env) with _ | t
    · rfl
    · dsimp only
      by_cases ht : t = []
      · rw [if_pos ht]
      · rw [if_neg ht, if_neg h]
  constructor
  · intro env url t h
    rw [hplain env url (some t) h, hplain env url none h]
  · intro env url token hsome
    by_cases h : trustedProviderHost (lowerStr (urlparse url).netloc)
    · exact h
    · rw [hplain env url token h] at hsome
      simp at hsome

/-- Witness for `C2_token_only_to_trusted_hosts`: a non-allowlisted host
receives identical headers with and without a token, and a Hugging Face
host passes the allowlist test exactly when the Authorization header shows
up. -/
theorem C2_token_only_to_trusted_hosts_witness :
    (¬ trustedProviderHost
      (lowerStr (urlparse "https://example.com/m.safetensors".toList).netloc))
    ∧ prepareHeaders ⟨none, none, none⟩
        "https://example.com/m.safetensors".toList (some "secret".toList)
      = prepareHeaders ⟨none, none, none⟩
        "https://example.com/m.safetensors".toList none
    ∧ ((prepareHeaders ⟨none, none, none⟩
        "https://huggingface.co/m.safetensors".toList
        (some "secret".toList)).authorization.isSome →
      trustedProviderHost
        (lowerStr (urlparse "https://huggingface.co/m.safetensors".toList).netloc)) :=
  ⟨by decide,
    C2_token_only_to_trusted_hosts.1 ⟨none, none, none⟩
      "https://example.com/m.safetensors".toList "secret".toList (by decide),
    C2_token_only_to_trusted_hosts.2 ⟨none, none, none⟩
      "https://huggingface.co/m.safetensors".toList (some "secret".toList)⟩

/-! ### `model_downloader_routes._run_download_job` (C6)

`_download_single` performs network and filesystem I/O, so its behaviour
on each item is abstracted into an explicit outcome: either the result
record it returned (carrying its `status` field, `"ok"` or `"skipped"` in
the source) or the message of the exception it raised. -/

/-- The per-item result record returned by `_download_single`
(key/filename/path fields are immaterial to the aggregation and elided). -/
structure DlResult where
  status : Str
deriving DecidableEq, Repr

/-- The counters and result list accumulated by the worker loop. -/
structure LoopAcc where
  downloaded : Nat
  skipped : Nat
  errors : Nat
  results : List (Except Str DlResult)
deriving Repr

/-- The job fields written by the final `_update_job` call. -/
structure JobSummary where
  downloaded : Nat
  errors : Nat
  skipped : Nat
deriving DecidableEq, Repr

/-- The final state/message/summary/results of a finished download job. -/
structure JobFinal where
  state : Str
  message : Str
  summary : JobSummary
  results : List (Except Str DlResult)
deriving Repr

/-- The `for index, item in enumerate(items)` loop of `_run_download_job`:
a raised exception is caught, recorded and counted, and later items are
still processed. -/
def processOutcomes : List (Except Str DlResult) → LoopAcc
  | [] => ⟨0, 0, 0, []⟩
  | o :: rest =>
    let t := processOutcomes rest
    match o with
    | .ok r =>
      if r.status = "ok".toList then
        ⟨t.downloaded + 1, t.skipped, t.errors, .ok r :: t.results⟩
      else if r.status = "skipped".toList then
        ⟨t.downloaded, t.skipped + 1, t.errors, .ok r :: t.results⟩
      else ⟨t.downloaded, t.skipped, t.errors, .ok r :: t.results⟩
    | .error msg => ⟨t.downloaded, t.skipped, t.errors + 1, .error msg :: t.results⟩

/-- `model_downloader_routes._run_download_job`, parametrized by the
per-item outcomes of `_download_single`. -/
def runDownloadJob (outcomes : List (Except Str DlResult)) : JobFinal :=
  let t := processOutcomes outcomes
  { state := if t.errors = 0 then "done".toList else "error".toList
    message := "Downloaded ".toList ++ (Nat.repr t.downloaded).toList
      ++ ", skipped ".toList ++ (Nat.repr t.skipped).toList
      ++ ", errors ".toList ++ (Nat.repr t.errors).toList
    summary := ⟨t.downloaded, t.errors, t.skipped⟩
    results := t.results }

/-- Outcome is a returned record with the given status. -/
def hasStatus (s : Str) : Except Str DlResult → Bool
  | .ok r => r.status = s
  | .error _ => false

/-- Outcome is a raised exception. -/
def isErrorOutcome : Except Str DlResult → Bool
  | .ok _ => false
  | .error _ => true

/-- Claim C6: every item is attempted regardless of earlier exceptions
(the result list echoes all outcomes in order), the summary is the exact
count of downloaded, skipped and errored items, and the final state is
`done` exactly when no item errored, `error` otherwise. -/
theorem C6_job_aggregation (outcomes : List (Except Str DlResult)) :
    (runDownloadJob outcomes).results = outcomes
    ∧ (runDownloadJob outcomes).results.length = outcomes.length
    ∧ (runDownloadJob outcomes).summary =
      ⟨outcomes.countP (hasStatus "ok".toList),
        outcomes.countP isErrorOutcome,
        outcomes.countP (hasStatus "skipped".toList)⟩
    ∧ (runDownloadJob outcomes).state =
      (if outcomes.countP isErrorOutcome = 0 then "done".toList
        else "error".toList) := by
  have key : ∀ os : List (Except Str DlResult),
      processOutcomes os =
        ⟨os.countP (hasStatus "ok".toList),
          os.countP (hasStatus "skipped".toList),
          os.countP isErrorOutcome, os⟩ := by
    intro os
    induction os with
    | nil => rfl
    | cons o rest ih =>
      cases o with
      | error msg =>
        simp only [processOutcomes]
        rw [ih, List.countP_cons, List.countP_cons, List.countP_cons]
        rw [show hasStatus "ok".toList (Except.error msg) = false from rfl,
          show hasStatus "skipped".toList (Except.error msg) = false from rfl,
          show isErrorOutcome (Except.error msg) = true from rfl]
        simp
      | ok r =>
        simp only [processOutcomes]
        rw [ih, List.countP_cons, List.countP_cons, List.countP_cons]
        rw [show isErrorOutcome (Except.ok r) = false from rfl]
        by_cases hok : r.status = "ok".toList
        · have hsk : r.status ≠ "skipped".toList := by rw [hok]; decide
          rw [if_pos hok,
            show hasStatus "ok".toList (Except.ok r) = true from by
              simp only [hasStatus]; exact decide_eq_true hok,
            show hasStatus "skipped".toList (Except.ok r) = false from by
              simp only [hasStatus]; exact decide_eq_false hsk]
          simp
        · rw [if_neg hok,
            show hasStatus "ok".toList (Except.ok r) = false from by
              simp only [hasStatus]; exact decide_eq_false hok]
          by_cases hsk : r.status = "skipped".toList
          · rw [if_pos hsk,
              show hasStatus "skipped".toList (Except.ok r) = true from by
                simp only [hasStatus]; exact decide_eq_true hsk]
            simp
          · rw [if_neg hsk,
              show hasStatus "skipped".toList (Except.ok r) = false from by
                simp only [hasStatus]; exact decide_eq_false hsk]
            simp
  refine ⟨?_, ?_, ?_, ?_⟩ <;>
    simp [runDownloadJob, key]

/-! ### `model_downloader_routes._cleanup_old_jobs` (C9)

`datetime.fromisoformat` is abstracted into an explicit parser parameter
`parse` (returning `none` when the source would raise `ValueError` /
`TypeError`), and datetimes are compared as integers; `cutoff` is
`datetime.now() - timedelta(hours=JOB_CLEANUP_HOURS)`. -/

/-- An in-memory download job registry entry (the fields touched by the
verified routes; jobs are stored in the `_jobs` dict keyed by job id). -/
structure Job where
  state : Str
  created_at : Str
  message : Str
deriving DecidableEq, Repr

/-- The in-memory `_jobs` dict: association list keyed by job id. -/
abbrev JobRegistry := List (Str × Job)

/-- The per-job test of the collection loop of `_cleanup_old_jobs`: the
job is marked for removal when `created_at` is non-empty, parses, and is
strictly older than the cutoff; a missing/empty/unparseable timestamp
keeps the job. -/
def shouldRemoveJob (parse : Str → Option Int) (cutoff : Int) (job : Job) :
    Bool :=
  if job.created_at = [] then false
  else
    match parse job.created_at with
    | some created => created < cutoff
    | none => false

/-- `model_downloader_routes._cleanup_old_jobs`: collect the ids of
removable jobs, then delete exactly those ids; returns the new registry
and the removal count. -/
def cleanupOldJobs (parse : Str → Option Int) (cutoff : Int)
    (jobs : JobRegistry) : JobRegistry × Nat :=
  let jobsToRemove :=
    (jobs.filter (fun p => shouldRemoveJob parse cutoff p.2)).map Prod.fst
  (jobs.filter (fun p => decide (p.1 ∉ jobsToRemove)), jobsToRemove.length)

/-- Claim C9: on a registry with distinct job ids, `_cleanup_old_jobs`
removes exactly the jobs whose `created_at` parses and is strictly older
than the cutoff; every job with an empty or unparseable `created_at`, or
one at/after the cutoff, survives, and surviving entries are the original
pairs, unmodified. -/
theorem C9_cleanup_exactness (parse : Str → Option Int) (cutoff : Int)
    (jobs : JobRegistry) (hnodup : (jobs.map Prod.fst).Nodup) :
    (cleanupOldJobs parse cutoff jobs).1 =
      jobs.filter (fun p => ¬ shouldRemoveJob parse cutoff p.2)
    ∧ (cleanupOldJobs parse cutoff jobs).2 =
      (jobs.filter (fun p => shouldRemoveJob parse cutoff p.2)).length
    ∧ ∀ p ∈ jobs,
        (p.2.created_at = [] ∨ parse p.2.created_at = none
          ∨ ∃ t, parse p.2.created_at = some t ∧ cutoff ≤ t) →
        p ∈ (cleanupOldJobs parse cutoff jobs).1 := by
  have hinj : ∀ p ∈ jobs, ∀ q ∈ jobs, p.1 = q.1 → p = q :=
    List.inj_on_of_nodup_map hnodup
  have hfilter : (cleanupOldJobs parse cutoff jobs).1 =
      jobs.filter (fun p => ¬ shouldRemoveJob parse cutoff p.2) := by
    simp only [cleanupOldJobs]
    refine List.filter_congr ?_
    intro p hp
    have hmem : p.1 ∈ (jobs.filter
        (fun q => shouldRemoveJob parse cutoff q.2)).map Prod.fst
        ↔ shouldRemoveJob parse cutoff p.2 = true := by
      constructor
      · intro hin
        rcases List.mem_map.mp hin with ⟨q, hq, hkey⟩
        rcases List.mem_filter.mp hq with ⟨hqmem, hqrm⟩
        exact (hinj q hqmem p hp hkey) ▸ hqrm
      · intro hrm
        exact List.mem_map.mpr ⟨p, List.mem_filter.mpr ⟨hp, hrm⟩, rfl⟩
    rw [decide_eq_decide]
    exact not_congr hmem
  refine ⟨hfilter, by
    simp only [cleanupOldJobs]
    exact List.length_map _ _, ?_⟩
  intro p hp hkeep
  rw [hfilter, List.mem_filter]
  refine ⟨hp, ?_⟩
  simp only [shouldRemoveJob, decide_eq_true_eq]
  rcases hkeep with h | h | ⟨t, ht, hle⟩
  · simp [h]
  · by_cases hempty : p.2.created_at = [] <;> simp [hempty, h]
  · by_cases hempty : p.2.created_at = [] <;>
      simp [hempty, ht, not_lt.mpr hle]

/-- Witness for `C9_cleanup_exactness` on a concrete two-job registry
(distinct ids discharged by `decide`): the filter characterization holds,
so the old parseable job is removed and the unparseable one survives. -/
theorem C9_cleanup_exactness_witness :
    (cleanupOldJobs (fun s => if s = "2020".toList then some 0 else none) 5
      ([("a".toList, Job.mk "queued".toList "2020".toList []),
        ("b".toList, Job.mk "queued".toList "nonsense".toList [])] : JobRegistry)).1 =
    ([("a".toList, Job.mk "queued".toList "2020".toList []),
        ("b".toList, Job.mk "queued".toList "nonsense".toList [])] : JobRegistry).filter
      (fun p => ¬ shouldRemoveJob
        (fun s => if s = "2020".toList then some 0 else none) 5 p.2) :=
  (C9_cleanup_exactness (fun s => if s = "2020".toList then some 0 else none) 5
    ([("a".toList, Job.mk "queued".toList "2020".toList []),
      ("b".toList, Job.mk "queued".toList "nonsense".toList [])] : JobRegistry)
    (by decide)).1

/-! ### `model_downloader_routes` item validation and download endpoint (C5) -/

/-- `model_downloader_routes.VALID_KINDS`. -/
def VALID_KINDS : List Str :=
  ["checkpoints", "diffusion_models", "loras", "vae", "controlnet",
    "text_encoders", "clip", "clip_vision", "unet", "upscale_models",
    "embeddings"].map String.toList

/-- `model_downloader_routes.KIND_ALIASES`. -/
def KIND_ALIASES : List (Str × Str) :=
  [("checkpoint", "checkpoints"), ("ckpt", "checkpoints"),
    ("lora", "loras"), ("text_encoder", "text_encoders"),
    ("text_encoders", "text_encoders"), ("diffusion", "diffusion_models")].map
    (fun p => (p.1.toList, p.2.toList))

/-- `model_downloader_routes.ALLOWED_EXTENSIONS`. -/
def ALLOWED_EXTENSIONS : List Str :=
  [".safetensors", ".ckpt", ".pt", ".pth", ".bin"].map String.toList

/-- `model_downloader_routes.MAX_ITEMS`. -/
def MAX_ITEMS : Nat := 50

/-- `model_downloader_routes._normalize_kind`. -/
def normalizeKind (kind : Option Str) : Option Str :=
  let k := lowerStr (pyStrip (kind.getD []))
  let k := match (KIND_ALIASES.find? (fun p => p.1 = k)).map Prod.snd with
    | some v => v
    | none => k
  if k ∈ VALID_KINDS then some k else none

/-- `model_downloader_routes._is_valid_sha256`. -/
def isValidSha256 (value : Str) : Bool :=
  if value = [] then false
  else
    let v := lowerStr (pyStrip value)
    if v.length ≠ 64 then false
    else v.all (fun c => c ∈ "0123456789abcdef".toList)

/-- `model_downloader_routes._validate_url` (the `(ok, err)` pair becomes
`Except`). -/
def validateUrl (url : Str) : Except Str Unit :=
  if url = [] then .error "url is required".toList
  else
    let parsed := urlparse url
    if parsed.scheme ∉ ["http".toList, "https".toList] then
      .error "url must start with http or https".toList
    else if parsed.netloc = [] then .error "url must include a host".toList
    else .ok ()

/-- `model_downloader_routes._extract_filename`. -/
def extractFilename (url filename : Str) : Str :=
  if filename ≠ [] then pyStrip filename
  else basename (urlparse url).path

/-- `os.path.splitext(p)[1]` for a separator-free basename: the extension
starts at the last dot, unless every character before that dot is a dot
(leading-dot files have no extension).  `_validate_filename` only reaches
this after rejecting names containing `/`, `\` or `:`. -/
def splitextExt (s : Str) : Str :=
  match ((List.range s.length).filter
      (fun i => s.get? i = some '.')).getLast? with
  | none => []
  | some i =>
    if (List.range i).any (fun j => s.get? j ≠ some '.') then s.drop i
    else []

/-- `model_downloader_routes._validate_filename` (the source's error text
quotes the extension; the quotes are elided here). -/
def validateFilename (filename : Str) : Except Str Unit :=
  if filename = [] then .error "filename is required".toList
  else if '/' ∈ filename ∨ '\\' ∈ filename ∨ ':' ∈ filename then
    .error "filename must be a basename".toList
  else if "..".toList <:+: filename then
    .error "filename contains invalid path".toList
  else
    let ext := splitextExt filename
    if lowerStr ext ∉ ALLOWED_EXTENSIONS then
      .error ("unsupported extension ".toList ++ ext)
    else .ok ()

/-- One raw dict submitted to the download / save-recipes endpoints; a
missing key is `none` (`dict.get` semantics; all values taken as strings,
matching the `str(... or "")` coercions in the source). -/
structure RawItem where
  key : Option Str
  url : Option Str
  kind : Option Str
  filename : Option Str
  sha256 : Option Str
  token : Option Str
deriving DecidableEq, Repr

/-- A validated download item / persisted recipe, as built by
`_validate_item` (`sha256 or None`, `token or None`). -/
structure Item where
  key : Str
  kind : Str
  url : Str
  filename : Str
  sha256 : Option Str
  token : Option Str
deriving DecidableEq, Repr

/-- `model_downloader_routes._validate_item`. -/
def validateItem (raw : RawItem) : Except Str Item :=
  let key := basename (raw.key.getD [])
  let url := pyStrip (raw.url.getD [])
  let kind := normalizeKind raw.kind
  let filename0 := pyStrip (raw.filename.getD [])
  let sha := lowerStr (pyStrip (raw.sha256.getD []))
  let token := pyStrip (raw.token.getD [])
  if key = [] then .error "key is required".toList
  else
    match validateUrl url with
    | .error e => .error e
    | .ok _ =>
      match kind with
      | none => .error "invalid kind".toList
      | some k =>
        let filename := extractFilename url filename0
        match validateFilename filename with
        | .error e => .error e
        | .ok _ =>
          if sha ≠ [] ∧ ¬ isValidSha256 sha then
            .error "sha256 must be 64 hex characters".toList
          else
            .ok ⟨key, k, url, filename,
              if sha = [] then none else some sha,
              if token = [] then none else some token⟩

/-- One entry of the submitted `items` list: a JSON object or not. -/
inductive RawEntry where
  | dict (item : RawItem)
  | nonDict
deriving DecidableEq, Repr

/-- Response of the download endpoint: a job id or a JSON error. -/
inductive DlResponse where
  | ok (jobId : Str)
  | error (msg : Str) (status : Nat)
deriving DecidableEq, Repr

/-- The per-entry step of the endpoint loop: non-dicts are rejected with
`invalid item in items`, dicts go through `_validate_item`. -/
def validateEntry : RawEntry → Except Str Item
  | .nonDict => .error "invalid item in items".toList
  | .dict raw => validateItem raw

/-- `model_downloader_routes._init_job`, restricted to the modelled job
fields. -/
def initJob (now : Str) : Job := ⟨"queued".toList, now, []⟩

/-- Python dict assignment `_jobs[job_id] = job`. -/
def insertJob (jobId : Str) (job : Job) (reg : JobRegistry) : JobRegistry :=
  if reg.any (fun p => p.1 = jobId) then
    reg.map (fun p => if p.1 = jobId then (jobId, job) else p)
  else reg ++ [(jobId, job)]

/-- The validation/dedup loop of `mjr_models_download`: validate each raw
entry (aborting the whole batch on the first failure), skipping duplicate
keys after validation. -/
def collectItems : List RawEntry → List Str → List Item → Except Str (List Item)
  | [], _, acc => .ok acc.reverse
  | e :: rest, seen, acc =>
    match validateEntry e with
    | .error msg => .error msg
    | .ok item =>
      if item.key ∈ seen then collectItems rest seen acc
      else collectItems rest (item.key :: seen) (item :: acc)

/-- `model_downloader_routes.mjr_models_download`, after JSON parsing:
`jobId` abstracts `uuid.uuid4().hex` and `now` the `datetime.now()`
timestamp; `parse`/`cutoff` feed the `_cleanup_old_jobs` call made on the
success path.  The spawned `_run_download_job` worker is modelled
separately (`runDownloadJob`). -/
def mjrModelsDownload (parse : Str → Option Int) (cutoff : Int)
    (rawItems : List RawEntry) (reg : JobRegistry) (jobId now : Str) :
    DlResponse × JobRegistry :=
  if rawItems = [] then (.error "items must be a non-empty list".toList 400, reg)
  else if rawItems.length > MAX_ITEMS then (.error "too many items".toList 400, reg)
  else
    match collectItems rawItems [] [] with
    | .error msg => (.error msg 400, reg)
    | .ok _items =>
      let cleaned := (cleanupOldJobs parse cutoff reg).1
      (.ok jobId, insertJob jobId (initJob now) cleaned)

/-- The validation loop propagates the first validation failure. -/
lemma collectItems_error (entries : List RawEntry) :
    ∀ (seen : List Str) (acc : List Item),
    (∃ e ∈ entries, ¬ (validateEntry e).isOk) →
    ∃ msg, (∃ e ∈ entries, validateEntry e = .error msg)
      ∧ collectItems entries seen acc = .error msg := by
  induction entries with
  | nil => rintro _ _ ⟨e, he, _⟩; cases he
  | cons e rest ih =>
    rintro seen acc ⟨f, hf, hbad⟩
    cases hval : validateEntry e with
    | error msg =>
      exact ⟨msg, ⟨e, List.mem_cons_self e rest, hval⟩,
        by simp [collectItems, hval]⟩
    | ok item =>
      have hfrest : f ∈ rest := by
        rcases List.mem_cons.mp hf with rfl | h
        · exact absurd (by rw [hval]; rfl) hbad
        · exact h
      by_cases hseen : item.key ∈ seen
      · rcases ih seen acc ⟨f, hfrest, hbad⟩ with ⟨msg, ⟨g, hg, hgerr⟩, hcol⟩
        exact ⟨msg, ⟨g, List.mem_cons_of_mem e hg, hgerr⟩,
          by simp [collectItems, hval, hseen, hcol]⟩
      · rcases ih (item.key :: seen) (item :: acc) ⟨f, hfrest, hbad⟩ with
          ⟨msg, ⟨g, hg, hgerr⟩, hcol⟩
        exact ⟨msg, ⟨g, List.mem_cons_of_mem e hg, hgerr⟩,
          by simp [collectItems, hval, hseen, hcol]⟩

/-- The validation loop succeeds when every entry validates. -/
lemma collectItems_ok (entries : List RawEntry) :
    ∀ (seen : List Str) (acc : List Item),
    (∀ e ∈ entries, (validateEntry e).isOk) →
    ∃ items, collectItems entries seen acc = .ok items := by
  induction entries with
  | nil => exact fun _ acc _ => ⟨acc.reverse, rfl⟩
  | cons e rest ih =>
    intro seen acc hall
    cases hval : validateEntry e with
    | error msg =>
      have hbad := hall e (List.mem_cons_self e rest)
      rw [hval] at hbad
      exact Bool.noConfusion hbad
    | ok item =>
      have hrest : ∀ f ∈ rest, (validateEntry f).isOk :=
        fun f hf => hall f (List.mem_cons_of_mem e hf)
      by_cases hseen : item.key ∈ seen
      · rcases ih seen acc hrest with ⟨items, hcol⟩
        exact ⟨items, by simp [collectItems, hval, hseen, hcol]⟩
      · rcases ih (item.key :: seen) (item :: acc) hrest with ⟨items, hcol⟩
        exact ⟨items, by simp [collectItems, hval, hseen, hcol]⟩

/-- Claim C5: within the size limit, a batch containing any invalid item
makes the endpoint return the first failing validation's message, create
no job and leave the registry untouched; when every item validates a job
is created. -/
theorem C5_batch_validation (parse : Str → Option Int) (cutoff : Int)
    (rawItems : List RawEntry) (reg : JobRegistry) (jobId now : Str)
    (hlen : rawItems.length ≤ MAX_ITEMS) :
    ((∃ e ∈ rawItems, ¬ (validateEntry e).isOk) →
      ∃ msg, (∃ e ∈ rawItems, validateEntry e = .error msg)
        ∧ mjrModelsDownload parse cutoff rawItems reg jobId now =
          (.error msg 400, reg))
    ∧ ((∀ e ∈ rawItems, (validateEntry e).isOk) → rawItems ≠ [] →
      mjrModelsDownload parse cutoff rawItems reg jobId now =
        (.ok jobId,
          insertJob jobId (initJob now) (cleanupOldJobs parse cutoff reg).1)) := by
  constructor
  · rintro ⟨e, he, hbad⟩
    have hne : rawItems ≠ [] := by rintro rfl; cases he
    rcases collectItems_error rawItems [] [] ⟨e, he, hbad⟩ with
      ⟨msg, hwitness, hcol⟩
    exact ⟨msg, hwitness, by
      simp only [mjrModelsDownload]
      rw [if_neg hne, if_neg (not_lt.mpr hlen), hcol]⟩
  · intro hall hne
    rcases collectItems_ok rawItems [] [] hall with ⟨items, hcol⟩
    simp only [mjrModelsDownload]
    rw [if_neg hne, if_neg (not_lt.mpr hlen), hcol]

/-- Witness for `C5_batch_validation`: a batch with a malformed URL is
rejected with the registry untouched, and a batch with one valid item
creates a job. -/
theorem C5_batch_validation_witness :
    (∃ msg, (∃ e ∈ [RawEntry.dict ⟨some "a.safetensors".toList,
        some "notaurl".toList, some "lora".toList, none, none, none⟩],
        validateEntry e = .error msg)
      ∧ mjrModelsDownload (fun _ => none) 0
          [RawEntry.dict ⟨some "a.safetensors".toList,
            some "notaurl".toList, some "lora".toList, none, none, none⟩]
          [] "j".toList "t".toList = (.error msg 400, []))
    ∧ mjrModelsDownload (fun _ => none) 0
        [RawEntry.dict ⟨some "a.safetensors".toList,
          some "https://example.com/a.safetensors".toList,
          some "lora".toList, none, none, none⟩]
        [] "j".toList "t".toList =
      (.ok "j".toList,
        insertJob "j".toList (initJob "t".toList)
          (cleanupOldJobs (fun _ => none) 0 []).1) :=
  ⟨(C5_batch_validation (fun _ => none) 0
      [RawEntry.dict ⟨some "a.safetensors".toList,
        some "notaurl".toList, some "lora".toList, none, none, none⟩]
      [] "j".toList "t".toList (by decide)).1
      ⟨RawEntry.dict ⟨some "a.safetensors".toList,
        some "notaurl".toList, some "lora".toList, none, none, none⟩,
        by decide, by decide⟩,
    (C5_batch_validation (fun _ => none) 0
      [RawEntry.dict ⟨some "a.safetensors".toList,
        some "https://example.com/a.safetensors".toList,
        some "lora".toList, none, none, none⟩]
      [] "j".toList "t".toList (by decide)).2
      (by decide) (by decide)⟩

/-! ### `model_sources_store` (C7, C10)

The persisted `model_sources.json` store is modelled by its normalized
`items` list (the output of `load_sources` on a well-formed schema-1
file; recipes written by this subsystem are `Item` records).  JSON I/O
(`read_json` / `write_json_atomic`) is the external persistence
collaborator. -/

/-- The `by_key` dict of `resolve_recipes` applied to a key: iterate the
items, keeping the last one whose key is a non-empty string. -/
def byKeyLookup (items : List Item) (k : Str) : Option Item :=
  items.foldl (fun acc it => if it.key ≠ [] ∧ it.key = k then some it else acc)
    none

/-- One entry of the `missing` list handed to `resolve_recipes`: a JSON
object with an optional `missing_value`, or a non-object value with its
Python truthiness. -/
inductive REntry where
  | dict (missing_value : Option Str)
  | nonDict (truthy : Bool)
deriving DecidableEq, Repr

/-- The string `str((entry or {}).get("missing_value") or "")`, for the
entries on which that expression does not raise. -/
def mvStr : REntry → Str
  | .dict mvOpt => mvOpt.getD []
  | .nonDict _ => []

/-- Evaluation of `(entry or {}).get("missing_value")`: a truthy
non-dict entry raises `AttributeError` (`.get` on a non-dict); a falsy
entry is replaced by the empty dict. -/
def entryMv : REntry → Except Str Str
  | .nonDict true => .error "AttributeError".toList
  | .nonDict false => .ok (mvStr (.nonDict false))
  | .dict mvOpt => .ok (mvStr (.dict mvOpt))

/-- One element of the `resolved` output list of `resolve_recipes`. -/
structure Resolved where
  missing_value : Str
  key : Str
  kind : Str
  recipe : Option Item
deriving DecidableEq, Repr

/-- The loop body of `resolve_recipes` for one missing value. -/
def resolveOne (store : List Item) (mv : Str) : Resolved :=
  let key := basename mv
  let recipe := byKeyLookup store key
  let kind := match recipe with
    | some r => r.kind
    | none => []
  ⟨mv, key, kind, recipe⟩

/-- `model_sources_store.resolve_recipes`; a raised `AttributeError`
aborts the whole call. -/
def resolveRecipes (store : List Item) : List REntry → Except Str (List Resolved)
  | [] => .ok []
  | e :: rest =>
    match entryMv e with
    | .error msg => .error msg
    | .ok mv =>
      match resolveRecipes store rest with
      | .error msg => .error msg
      | .ok rs => .ok (resolveOne store mv :: rs)

/-- Python dict assignment `merged[item.key] = item` on an association
list with distinct keys: replace in place when present, append when new. -/
def dictInsert (m : List Item) (it : Item) : List Item :=
  if m.any (fun j => j.key = it.key) then
    m.map (fun j => if j.key = it.key then it else j)
  else m ++ [it]

/-- Code-point lexicographic string comparison, Python's `<=` on `str`
(used through `sorted(..., key=...)`). -/
def strLe : Str → Str → Bool
  | [], _ => true
  | _ :: _, [] => false
  | x :: xs, y :: ys => if x = y then strLe xs ys else decide (x < y)

/-- `model_sources_store.save_recipes` at the level of the persisted
items list: merge old and new items into a dict keyed by non-empty keys
(later entries overwrite), then persist sorted by key. -/
def saveRecipes (store items : List Item) : List Item :=
  let merged := ((store ++ items).filter (fun it => it.key ≠ [])).foldl
    dictInsert []
  merged.mergeSort (fun a b => strLe a.key b.key)

/-- `Item` with the `token` entry popped
(`item.pop("token", None)` in `mjr_models_save_recipes`). -/
def popToken (it : Item) : Item :=
  { it with token := none }

/-- The validation loop of `mjr_models_save_recipes`: validate every raw
entry (aborting on the first failure) and strip the token. -/
def collectRecipeItems : List RawEntry → List Item → Except Str (List Item)
  | [], acc => .ok acc.reverse
  | e :: rest, acc =>
    match validateEntry e with
    | .error msg => .error msg
    | .ok item => collectRecipeItems rest (popToken item :: acc)

/-- `model_downloader_routes.mjr_models_save_recipes`, returning the
persisted items list. -/
def mjrModelsSaveRecipes (rawItems : List RawEntry) (store : List Item) :
    Except Str (List Item) :=
  if rawItems.length > MAX_ITEMS then .error "too many items".toList
  else
    match collectRecipeItems rawItems [] with
    | .error msg => .error msg
    | .ok items => .ok (saveRecipes store items)

/-! ### Claim C10 -/

/-- Claim C10 as stated is false: `resolve_recipes` raises
`AttributeError` on a truthy non-dict entry (`(entry or {}).get` is
called on the entry itself), so it does not tolerate every non-dict
value. -/
theorem C10_counterexample :
    ∃ msg, resolveRecipes [] [REntry.nonDict true] = .error msg :=
  ⟨"AttributeError".toList, rfl⟩

/-- Claim C10, amended: for input lists whose entries are JSON objects or
falsy values, `resolve_recipes` returns (without raising) a list of the
same length and order whose i-th element carries the stringified
`missing_value` of the i-th entry and its basename as `key`.  Truthy
non-dict entries instead raise `AttributeError`. -/
theorem C10_resolve_shape (store : List Item) (entries : List REntry)
    (h : ∀ e ∈ entries, entryMv e = .ok (mvStr e)) :
    resolveRecipes store entries =
      .ok (entries.map (fun e => resolveOne store (mvStr e)))
    ∧ (entries.map (fun e => resolveOne store (mvStr e))).length
        = entries.length
    ∧ ∀ (i : Nat) (hi : i < entries.length),
        ((entries.map (fun e => resolveOne store (mvStr e))).get
            ⟨i, by simpa using hi⟩).missing_value
          = mvStr (entries.get ⟨i, hi⟩)
        ∧ ((entries.map (fun e => resolveOne store (mvStr e))).get
            ⟨i, by simpa using hi⟩).key
          = basename (mvStr (entries.get ⟨i, hi⟩)) := by
  refine ⟨?_, by simp, ?_⟩
  · induction entries with
    | nil => rfl
    | cons e rest ih =>
      have he := h e (List.mem_cons_self e rest)
      have hrest := ih (fun f hf => h f (List.mem_cons_of_mem e hf))
      simp only [resolveRecipes, he, hrest, List.map_cons]
  · intro i hi
    refine ⟨?_, ?_⟩ <;> simp [resolveOne]

/-- Witness for `C10_resolve_shape` on a dict entry and a falsy
non-dict entry over the empty store. -/
theorem C10_resolve_shape_witness :
    resolveRecipes [] [REntry.dict (some "x.safetensors".toList),
        REntry.nonDict false] =
      .ok ([REntry.dict (some "x.safetensors".toList),
        REntry.nonDict false].map (fun e => resolveOne [] (mvStr e))) :=
  (C10_resolve_shape [] [REntry.dict (some "x.safetensors".toList),
    REntry.nonDict false] (by intro e he; fin_cases he <;> rfl)).1

/-! ### Claim C7: supporting lemmas on the merged recipe dict -/

/-- An inserted item is present afterwards. -/
lemma mem_dictInsert_self (m : List Item) (x : Item) : x ∈ dictInsert m x := by
  unfold dictInsert
  split
  · rename_i hany
    rcases List.any_eq_true.mp hany with ⟨j, hj, hkey⟩
    exact List.mem_map.mpr ⟨j, hj, by rw [if_pos (of_decide_eq_true hkey)]⟩
  · exact List.mem_append_right _ (List.mem_singleton.mpr rfl)

/-- Insertion adds no item beyond the inserted one. -/
lemma mem_of_mem_dictInsert {m : List Item} {x y : Item}
    (h : y ∈ dictInsert m x) : y ∈ m ∨ y = x := by
  unfold dictInsert at h
  split at h
  · rcases List.mem_map.mp h with ⟨j, hj, heq⟩
    by_cases hk : j.key = x.key
    · rw [if_pos hk] at heq
      exact Or.inr heq.symm
    · rw [if_neg hk] at heq
      exact Or.inl (heq ▸ hj)
  · rcases List.mem_append.mp h with h | h
    · exact Or.inl h
    · exact Or.inr (List.mem_singleton.mp h)

/-- Replacing in place keeps the key sequence. -/
lemma dictInsert_keys_of_any (m : List Item) (x : Item)
    (h : m.any (fun j => j.key = x.key)) :
    (dictInsert m x).map Item.key = m.map Item.key := by
  unfold dictInsert
  rw [if_pos h, List.map_map]
  refine List.map_congr_left ?_
  intro j _
  by_cases hk : j.key = x.key
  · simp [Function.comp, hk]
  · simp [Function.comp, hk]

/-- Appending a fresh key appends it to the key sequence. -/
lemma dictInsert_keys_of_not_any (m : List Item) (x : Item)
    (h : ¬ m.any (fun j => j.key = x.key)) :
    (dictInsert m x).map Item.key = m.map Item.key ++ [x.key] := by
  unfold dictInsert
  rw [if_neg h, List.map_append]
  rfl

/-- Dict insertion preserves distinctness of keys. -/
lemma dictInsert_keys_nodup (m : List Item) (x : Item)
    (h : (m.map Item.key).Nodup) :
    ((dictInsert m x).map Item.key).Nodup := by
  by_cases hany : m.any (fun j => j.key = x.key)
  · rw [dictInsert_keys_of_any m x hany]
    exact h
  · rw [dictInsert_keys_of_not_any m x hany]
    have hnot : x.key ∉ m.map Item.key := by
      intro hmem
      rcases List.mem_map.mp hmem with ⟨j, hj, hkey⟩
      exact hany (List.any_eq_true.mpr ⟨j, hj, decide_eq_true hkey⟩)
    simp [List.nodup_append, h, hnot]

/-- Folding dict insertions preserves distinctness of keys. -/
lemma foldl_dictInsert_keys_nodup (l : List Item) :
    ∀ m : List Item, (m.map Item.key).Nodup →
    ((l.foldl dictInsert m).map Item.key).Nodup := by
  induction l with
  | nil => exact fun m h => h
  | cons it l ih =>
    intro m h
    exact ih (dictInsert m it) (dictInsert_keys_nodup m it h)

/-- Every item of a dict fold comes from the seed or the inserted list. -/
lemma mem_of_mem_foldl_dictInsert (l : List Item) :
    ∀ (m : List Item) (y : Item), y ∈ l.foldl dictInsert m →
    y ∈ m ∨ y ∈ l := by
  induction l with
  | nil => exact fun m y h => Or.inl h
  | cons it l ih =>
    intro m y h
    rcases ih (dictInsert m it) y h with h | h
    · rcases mem_of_mem_dictInsert h with h | rfl
      · exact Or.inl h
      · exact Or.inr (List.mem_cons_self _ _)
    · exact Or.inr (List.mem_cons_of_mem _ h)

/-- The `by_key` fold is unchanged over items that never match. -/
lemma byKeyLookup_fold_const (k : Str) (l : List Item) :
    ∀ init : Option Item, (∀ j ∈ l, ¬(j.key ≠ [] ∧ j.key = k)) →
    l.foldl (fun acc it => if it.key ≠ [] ∧ it.key = k then some it else acc)
      init = init := by
  induction l with
  | nil => exact fun init _ => rfl
  | cons a t ih =>
    intro init h
    have ha := h a (List.mem_cons_self a t)
    simp only [List.foldl_cons, if_neg ha]
    exact ih init (fun j hj => h j (List.mem_cons_of_mem a hj))

/-- With distinct keys, `by_key.get` returns the unique item at a key. -/
lemma byKeyLookup_eq_of_mem (l : List Item) (x : Item) (k : Str)
    (hnd : (l.map Item.key).Nodup) (hx : x ∈ l) (hkey : x.key = k)
    (hne : x.key ≠ []) :
    byKeyLookup l k = some x := by
  unfold byKeyLookup
  induction l generalizing x with
  | nil => cases hx
  | cons a t ih =>
    rcases List.mem_cons.mp hx with rfl | hxt
    · simp only [List.foldl_cons, if_pos (And.intro hne hkey)]
      refine byKeyLookup_fold_const k t (some x) ?_
      intro j hj hmatch
      have : j.key ∈ t.map Item.key := List.mem_map.mpr ⟨j, hj, rfl⟩
      rw [hmatch.2, ← hkey] at this
      exact (List.nodup_cons.mp hnd).1 this
    · have hane : ¬(a.key ≠ [] ∧ a.key = k) := by
        rintro ⟨_, hak⟩
        have : x.key ∈ t.map Item.key := List.mem_map.mpr ⟨x, hxt, rfl⟩
        rw [hkey, ← hak] at this
        exact (List.nodup_cons.mp hnd).1 this
      simp only [List.foldl_cons, if_neg hane]
      exact ih x (List.nodup_cons.mp hnd).2 hxt hkey hne

/-- A validated item's key is the basename of the raw key and non-empty. -/
lemma validateItem_ok_key (raw : RawItem) (item : Item)
    (h : validateItem raw = .ok item) :
    item.key = basename (raw.key.getD []) ∧ item.key ≠ [] := by
  simp only [validateItem] at h
  by_cases hk : basename (raw.key.getD []) = []
  · rw [if_pos hk] at h
    exact Except.noConfusion h
  · rw [if_neg hk] at h
    split at h
    · exact Except.noConfusion h
    · split at h
      · exact Except.noConfusion h
      · split at h
        · exact Except.noConfusion h
        · split at h
          · exact Except.noConfusion h
          · cases h
            exact ⟨rfl, hk⟩

/-- Claim C7: saving one validated recipe through the save-recipes
endpoint persists it without its token, every persisted item stays
token-free, and resolving a missing value whose basename is the recipe's
key returns the saved recipe verbatim (token already stripped). -/
theorem C7_save_then_resolve (store : List Item) (raw : RawItem)
    (item : Item) (mv : Str)
    (hstore : ∀ j ∈ store, j.token = none)
    (hval : validateItem raw = .ok item)
    (hmv : basename mv = item.key) :
    ∃ newStore,
      mjrModelsSaveRecipes [RawEntry.dict raw] store = .ok newStore
      ∧ (∀ j ∈ newStore, j.token = none)
      ∧ popToken item ∈ newStore
      ∧ resolveRecipes newStore [REntry.dict (some mv)] =
        .ok [⟨mv, item.key, item.kind, some (popToken item)⟩] := by
  have hkey := validateItem_ok_key raw item hval
  have hkeyne : (popToken item).key ≠ [] := hkey.2
  -- the endpoint validates the singleton batch and strips the token
  have hendpoint : mjrModelsSaveRecipes [RawEntry.dict raw] store =
      .ok (saveRecipes store [popToken item]) := by
    simp only [mjrModelsSaveRecipes, collectRecipeItems, validateEntry, hval]
    rfl
  -- the merged dict
  set filteredOld := store.filter (fun it => decide (it.key ≠ [])) with hfo
  have hfilter : (store ++ [popToken item]).filter
      (fun it => decide (it.key ≠ [])) = filteredOld ++ [popToken item] := by
    rw [List.filter_append, ← hfo]
    congr 1
    simp only [List.filter_cons, List.filter_nil]
    rw [if_pos (decide_eq_true hkeyne)]
  set base := filteredOld.foldl dictInsert [] with hbase
  have hmerged : ((store ++ [popToken item]).filter
      (fun it => decide (it.key ≠ []))).foldl dictInsert [] =
      dictInsert base (popToken item) := by
    rw [hfilter, List.foldl_append]
    rfl
  have hbasend : (base.map Item.key).Nodup :=
    foldl_dictInsert_keys_nodup filteredOld [] (by simp)
  have hmergednd : ((dictInsert base (popToken item)).map Item.key).Nodup :=
    dictInsert_keys_nodup base (popToken item) hbasend
  -- the persisted (sorted) store
  set sorted := (dictInsert base (popToken item)).mergeSort
    (fun a b => strLe a.key b.key) with hsorted
  have hperm : sorted.Perm (dictInsert base (popToken item)) :=
    List.mergeSort_perm _ _
  have hsortednd : (sorted.map Item.key).Nodup :=
    ((hperm.map Item.key).symm).nodup hmergednd
  have hmemsorted : popToken item ∈ sorted :=
    hperm.mem_iff.mpr (mem_dictInsert_self base (popToken item))
  have hsave : saveRecipes store [popToken item] = sorted := by
    simp only [saveRecipes, hsorted]
    rw [hmerged]
  have htokens : ∀ j ∈ sorted, j.token = none := by
    intro j hj
    rcases mem_of_mem_dictInsert (hperm.mem_iff.mp hj) with hjb | rfl
    · rcases mem_of_mem_foldl_dictInsert filteredOld [] j hjb with h | h
      · cases h
      · exact hstore j (List.mem_of_mem_filter h)
    · rfl
  have hlookup : byKeyLookup sorted item.key = some (popToken item) :=
    byKeyLookup_eq_of_mem sorted (popToken item) item.key hsortednd
      hmemsorted rfl hkeyne
  refine ⟨sorted, by rw [hendpoint, hsave], htokens, hmemsorted, ?_⟩
  simp only [resolveRecipes, entryMv, mvStr, Option.getD, resolveOne]
  rw [hmv, hlookup]
  rfl

/-- Witness for `C7_save_then_resolve`: a lora recipe with a token is
saved into the empty store and resolved through a path-qualified missing
value. -/
theorem C7_save_then_resolve_witness :
    ∃ newStore,
      mjrModelsSaveRecipes [RawEntry.dict ⟨some "a.safetensors".toList,
        some "https://example.com/a.safetensors".toList, some "lora".toList,
        none, none, some "tok".toList⟩] [] = .ok newStore
      ∧ (∀ j ∈ newStore, j.token = none)
      ∧ popToken ⟨"a.safetensors".toList, "loras".toList,
          "https://example.com/a.safetensors".toList,
          "a.safetensors".toList, none, some "tok".toList⟩ ∈ newStore
      ∧ resolveRecipes newStore
          [REntry.dict (some "sub/a.safetensors".toList)] =
        .ok [⟨"sub/a.safetensors".toList, "a.safetensors".toList,
          "loras".toList,
          some (popToken ⟨"a.safetensors".toList, "loras".toList,
            "https://example.com/a.safetensors".toList,
            "a.safetensors".toList, none, some "tok".toList⟩)⟩] :=
  C7_save_then_resolve []
    ⟨some "a.safetensors".toList,
      some "https://example.com/a.safetensors".toList, some "lora".toList,
      none, none, some "tok".toList⟩
    ⟨"a.safetensors".toList, "loras".toList,
      "https://example.com/a.safetensors".toList,
      "a.safetensors".toList, none, some "tok".toList⟩
    "sub/a.safetensors".toList
    (by intro j hj; cases hj) (by rfl) (by decide)

/-! ### `model_search_api.search_all_platforms` result assembly (C8)

The network-facing searches (`search_web_first`, `search_huggingface`,
`search_github`, `search_civitai`) are abstracted into the accumulated
per-platform result lists `hfAcc`/`ghAcc`/`cvAcc` that the assembly code
at the end of `search_all_platforms` receives; scores are `ℚ`. -/

/-- One search result (the fields the assembly code reads). -/
structure SearchResult where
  name : Str
  url : Str
  matchScore : ℚ
deriving DecidableEq, Repr

/-- `sorted(results, key=lambda x: x.get("match_score", 0), reverse=True)`:
stable descending comparison on scores. -/
def scoreDesc (a b : SearchResult) : Bool :=
  decide (b.matchScore ≤ a.matchScore)

/-- The scan of `deduplicate_and_filter`: walk the sorted list, drop
results under `min_score`, keep the first result for each non-empty URL. -/
def dedupGo (minScore : ℚ) : List SearchResult → List Str → List SearchResult
  | [], _ => []
  | r :: rest, seen =>
    if r.matchScore < minScore then dedupGo minScore rest seen
    else if r.url ≠ [] ∧ r.url ∉ seen then
      r :: dedupGo minScore rest (r.url :: seen)
    else dedupGo minScore rest seen

/-- `model_search_api.search_all_platforms`, inner
`deduplicate_and_filter`. -/
def deduplicateAndFilter (results : List SearchResult) (maxResults : Nat)
    (minScore : ℚ) : List SearchResult :=
  (dedupGo minScore (results.mergeSort scoreDesc) []).take maxResults

/-- The assembled output of `search_all_platforms`. -/
structure SearchOutput where
  huggingface : List SearchResult
  github : List SearchResult
  civitai : List SearchResult
  sortedResults : List SearchResult
  totalResults : Nat
deriving Repr

/-- The result-assembly tail of `model_search_api.search_all_platforms`
(per-platform dedup/filter/cap with the source's limits, fixed-priority
concatenation, global sort, total count). -/
def searchAllPlatforms (hfAcc ghAcc cvAcc : List SearchResult)
    (limitPerPlatform : Nat) : SearchOutput :=
  let hfLimit := limitPerPlatform * 2
  let ghLimit := limitPerPlatform * 2
  let civitaiLimit := limitPerPlatform
  let hf := deduplicateAndFilter hfAcc hfLimit 80
  let gh := deduplicateAndFilter ghAcc ghLimit 80
  let cv := deduplicateAndFilter cvAcc civitaiLimit 80
  let allResults := hf ++ gh ++ cv
  { huggingface := hf, github := gh, civitai := cv,
    sortedResults := allResults.mergeSort scoreDesc,
    totalResults := allResults.length }

/-- Invariants of the dedup scan: every kept result passed the score
filter, has a non-empty URL outside `seen`, and comes from the input. -/
lemma dedupGo_mem (minScore : ℚ) (l : List SearchResult) :
    ∀ (seen : List Str) (r : SearchResult), r ∈ dedupGo minScore l seen →
    minScore ≤ r.matchScore ∧ r.url ≠ [] ∧ r.url ∉ seen ∧ r ∈ l := by
  induction l with
  | nil => intro seen r h; cases h
  | cons x rest ih =>
    intro seen r h
    by_cases hlow : x.matchScore < minScore
    · rw [dedupGo, if_pos hlow] at h
      rcases ih seen r h with ⟨h1, h2, h3, h4⟩
      exact ⟨h1, h2, h3, List.mem_cons_of_mem x h4⟩
    · by_cases hkeep : x.url ≠ [] ∧ x.url ∉ seen
      · rw [dedupGo, if_neg hlow, if_pos hkeep] at h
        rcases List.mem_cons.mp h with rfl | h
        · exact ⟨not_lt.mp hlow, hkeep.1, hkeep.2, List.mem_cons_self r rest⟩
        · rcases ih (x.url :: seen) r h with ⟨h1, h2, h3, h4⟩
          exact ⟨h1, h2, fun hs => h3 (List.mem_cons_of_mem _ hs),
            List.mem_cons_of_mem x h4⟩
      · rw [dedupGo, if_neg hlow, if_neg hkeep] at h
        rcases ih seen r h with ⟨h1, h2, h3, h4⟩
        exact ⟨h1, h2, h3, List.mem_cons_of_mem x h4⟩

/-- The dedup scan emits pairwise-distinct URLs. -/
lemma dedupGo_pairwise (minScore : ℚ) (l : List SearchResult) :
    ∀ seen : List Str,
    (dedupGo minScore l seen).Pairwise (fun a b => a.url ≠ b.url) := by
  induction l with
  | nil => intro seen; exact List.Pairwise.nil
  | cons x rest ih =>
    intro seen
    by_cases hlow : x.matchScore < minScore
    · rw [dedupGo, if_pos hlow]
      exact ih seen
    · by_cases hkeep : x.url ≠ [] ∧ x.url ∉ seen
      · rw [dedupGo, if_neg hlow, if_pos hkeep]
        refine List.Pairwise.cons ?_ (ih (x.url :: seen))
        intro y hy hxy
        have hnotin := (dedupGo_mem minScore rest (x.url :: seen) y hy).2.2.1
        apply hnotin
        rw [← hxy]
        exact List.mem_cons_self _ _
      · rw [dedupGo, if_neg hlow, if_neg hkeep]
        exact ih seen

/-- On a score-descending list, the dedup scan keeps the highest-scoring
result among those sharing a URL. -/
lemma dedupGo_keeps_highest (minScore : ℚ) (l : List SearchResult)
    (hsorted : l.Pairwise (fun a b => b.matchScore ≤ a.matchScore)) :
    ∀ (seen : List Str) (r : SearchResult), r ∈ dedupGo minScore l seen →
    ∀ s ∈ l, s.url = r.url → s.matchScore ≤ r.matchScore := by
  induction l with
  | nil => intro seen r h; cases h
  | cons x rest ih =>
    have hx := List.pairwise_cons.mp hsorted
    intro seen r hr s hs hurl
    by_cases hlow : x.matchScore < minScore
    · rw [dedupGo, if_pos hlow] at hr
      rcases List.mem_cons.mp hs with rfl | hs
      · have := (dedupGo_mem minScore rest seen r hr).1
        exact le_trans (le_of_lt hlow) this
      · exact ih hx.2 seen r hr s hs hurl
    · by_cases hkeep : x.url ≠ [] ∧ x.url ∉ seen
      · rw [dedupGo, if_neg hlow, if_pos hkeep] at hr
        rcases List.mem_cons.mp hr with rfl | hr
        · rcases List.mem_cons.mp hs with rfl | hs
          · exact le_refl _
          · exact hx.1 s hs
        · rcases List.mem_cons.mp hs with rfl | hs
          · have hnotin := (dedupGo_mem minScore rest (s.url :: seen) r hr).2.2.1
            exact absurd (by rw [← hurl]; exact List.mem_cons_self _ _) hnotin
          · exact ih hx.2 (x.url :: seen) r hr s hs hurl
      · rw [dedupGo, if_neg hlow, if_neg hkeep] at hr
        rcases List.mem_cons.mp hs with rfl | hs
        · have hkept := dedupGo_mem minScore rest seen r hr
          rw [hurl] at hkeep
          exact absurd ⟨hkept.2.1, hkept.2.2.1⟩ hkeep
        · exact ih hx.2 seen r hr s hs hurl

/-- `scoreDesc` is transitive. -/
lemma scoreDesc_trans (a b c : SearchResult) (h1 : scoreDesc a b = true)
    (h2 : scoreDesc b c = true) : scoreDesc a c = true := by
  simp only [scoreDesc, decide_eq_true_eq] at *
  exact le_trans h2 h1

/-- `scoreDesc` is total. -/
lemma scoreDesc_total (a b : SearchResult) :
    (scoreDesc a b || scoreDesc b a) = true := by
  simp only [scoreDesc, Bool.or_eq_true, decide_eq_true_eq]
  exact le_total b.matchScore a.matchScore

/-- A merge-sorted result list is score-descending. -/
lemma mergeSort_scoreDesc (l : List SearchResult) :
    (l.mergeSort scoreDesc).Pairwise
      (fun a b => b.matchScore ≤ a.matchScore) := by
  have := List.sorted_mergeSort scoreDesc_trans scoreDesc_total l
  exact this.imp (fun h => by
    simpa [scoreDesc, decide_eq_true_eq] using h)

/-- Every result kept by `deduplicate_and_filter` scores at least
`minScore`, URLs are pairwise distinct, and the kept result for a URL
scores at least as high as every input result with that URL. -/
lemma deduplicateAndFilter_spec (results : List SearchResult)
    (maxResults : Nat) (minScore : ℚ) :
    (∀ r ∈ deduplicateAndFilter results maxResults minScore,
      minScore ≤ r.matchScore)
    ∧ (deduplicateAndFilter results maxResults minScore).Pairwise
        (fun a b => a.url ≠ b.url)
    ∧ (∀ r ∈ deduplicateAndFilter results maxResults minScore,
        ∀ s ∈ results, s.url = r.url → s.matchScore ≤ r.matchScore) := by
  refine ⟨?_, ?_, ?_⟩
  · intro r hr
    have hr := List.Sublist.mem hr (List.take_sublist _ _)
    exact (dedupGo_mem minScore _ [] r hr).1
  · exact (dedupGo_pairwise minScore _ []).sublist (List.take_sublist _ _)
  · intro r hr s hs hurl
    have hr := List.Sublist.mem hr (List.take_sublist _ _)
    have hs : s ∈ results.mergeSort scoreDesc :=
      (List.mergeSort_perm results scoreDesc).symm.mem_iff.mp hs
    exact dedupGo_keeps_highest minScore _ (mergeSort_scoreDesc results)
      [] r hr s hs hurl

/-- Claim C8: in the output of `search_all_platforms`, every per-platform
and globally sorted result scores at least 80, per-platform URLs are
pairwise distinct with the highest-scoring duplicate kept, and
`sorted_results` is ordered by descending match score. -/
theorem C8_search_assembly (hfAcc ghAcc cvAcc : List SearchResult)
    (limit : Nat) :
    (∀ r ∈ (searchAllPlatforms hfAcc ghAcc cvAcc limit).huggingface,
      80 ≤ r.matchScore)
    ∧ (∀ r ∈ (searchAllPlatforms hfAcc ghAcc cvAcc limit).github,
      80 ≤ r.matchScore)
    ∧ (∀ r ∈ (searchAllPlatforms hfAcc ghAcc cvAcc limit).civitai,
      80 ≤ r.matchScore)
    ∧ (∀ r ∈ (searchAllPlatforms hfAcc ghAcc cvAcc limit).sortedResults,
      80 ≤ r.matchScore)
    ∧ (searchAllPlatforms hfAcc ghAcc cvAcc limit).huggingface.Pairwise
        (fun a b => a.url ≠ b.url)
    ∧ (searchAllPlatforms hfAcc ghAcc cvAcc limit).github.Pairwise
        (fun a b => a.url ≠ b.url)
    ∧ (searchAllPlatforms hfAcc ghAcc cvAcc limit).civitai.Pairwise
        (fun a b => a.url ≠ b.url)
    ∧ (∀ r ∈ (searchAllPlatforms hfAcc ghAcc cvAcc limit).huggingface,
        ∀ s ∈ hfAcc, s.url = r.url → s.matchScore ≤ r.matchScore)
    ∧ (∀ r ∈ (searchAllPlatforms hfAcc ghAcc cvAcc limit).github,
        ∀ s ∈ ghAcc, s.url = r.url → s.matchScore ≤ r.matchScore)
    ∧ (∀ r ∈ (searchAllPlatforms hfAcc ghAcc cvAcc limit).civitai,
        ∀ s ∈ cvAcc, s.url = r.url → s.matchScore ≤ r.matchScore)
    ∧ (searchAllPlatforms hfAcc ghAcc cvAcc limit).sortedResults.Pairwise
        (fun a b => b.matchScore ≤ a.matchScore) := by
  have hhf := deduplicateAndFilter_spec hfAcc (limit * 2) 80
  have hgh := deduplicateAndFilter_spec ghAcc (limit * 2) 80
  have hcv := deduplicateAndFilter_spec cvAcc limit 80
  have hsortmem : ∀ r ∈ (searchAllPlatforms hfAcc ghAcc cvAcc limit).sortedResults,
      80 ≤ r.matchScore := by
    intro r hr
    have hr := (List.mergeSort_perm _ scoreDesc).mem_iff.mp hr
    rcases List.mem_append.mp hr with hr | hr
    · rcases List.mem_append.mp hr with hr | hr
      · exact hhf.1 r hr
      · exact hgh.1 r hr
    · exact hcv.1 r hr
  exact ⟨hhf.1, hgh.1, hcv.1, hsortmem, hhf.2.1, hgh.2.1, hcv.2.1,
    hhf.2.2, hgh.2.2, hcv.2.2, mergeSort_scoreDesc _⟩

end MjrProject
